import Mathlib

/-!
Verification of the Mural canvas/cache subsystem.

This file gives a shallow embedding, in Lean 4, of the parts of the Mural
repository that the specification's claims are about:

* `concurrency_manager.py` — `OptimisticLockManager` (`get_version`,
  `check_and_update`, `force_update`) and `ConcurrentCanvasManager.update_pixel`;
* `cache_service_v2.py` — `TieredCacheService` (`_update_l1_lru`, `get`, `set`)
  and `MuralCacheV2.update_pixel`;
* `data_storage.py` — `OptimizedDataStorage.save` and `DeltaCompressionStorage`
  (`save_with_delta`, `load_with_delta`, `_calculate_delta`, `_apply_delta`);
* `app_optimized.py` — `place_pixel` validation and the WebSocket batching
  functions `batch_pixel_update` / `flush_pixel_batch`.

Python dictionaries are modelled as association lists with insertion-order
semantics (`dlookup`, `dinsert`, `dremove`), machine-level serialization
(msgpack/JSON/lz4) is modelled as the identity on the stored value with
abstract size functions where a size threshold matters, and the string keys
the source builds by `f"..."` formatting are modelled by the structured data
interpolated into them (the formats in the source are injective).
-/

namespace Mural

/-- Python `dict.get(key)`: the value at the first matching key, if any. -/
def dlookup {K V : Type} [DecidableEq K] : List (K × V) → K → Option V
  | [], _ => none
  | (k, v) :: rest, q => if k = q then some v else dlookup rest q

/-- Python `d[key] = value`: overwrite in place if the key is present
(dictionaries keep the original insertion position), else append. -/
def dinsert {K V : Type} [DecidableEq K] : List (K × V) → K → V → List (K × V)
  | [], k, v => [(k, v)]
  | (k0, v0) :: rest, k, v =>
      if k0 = k then (k, v) :: rest else (k0, v0) :: dinsert rest k v

/-- Python `d.pop(key, None)`: drop the entry for `key` if present. -/
def dremove {K V : Type} [DecidableEq K] : List (K × V) → K → List (K × V)
  | [], _ => []
  | (k0, v0) :: rest, k =>
      if k0 = k then rest else (k0, v0) :: dremove rest k

/-- A dictionary has no duplicate keys (true of every Python `dict`). -/
def NodupKeys {K V : Type} (d : List (K × V)) : Prop := (d.map Prod.fst).Nodup

/-! ## OptimisticLockManager (`concurrency_manager.py`, lines 13-38)

`self.versions` is a dict from resource-id to int; a missing resource reads
as version 0 (`self.versions.get(resource_id, 0)`). -/

/-- `OptimisticLockManager.get_version`: `self.versions.get(resource_id, 0)`. -/
def getVersion {K : Type} [DecidableEq K] (versions : List (K × Nat)) (rid : K) : Nat :=
  (dlookup versions rid).getD 0

/-- `OptimisticLockManager.check_and_update`: if the current version equals
`expected`, store `current + 1` and succeed; otherwise leave the map
untouched and fail. -/
def checkAndUpdate {K : Type} [DecidableEq K] (versions : List (K × Nat)) (rid : K)
    (expected : Nat) : List (K × Nat) × Bool :=
  let current := getVersion versions rid
  if current = expected then (dinsert versions rid (current + 1), true)
  else (versions, false)

/-- `OptimisticLockManager.force_update`: unconditionally store
`current + 1` and return the new version. -/
def forceUpdate {K : Type} [DecidableEq K] (versions : List (K × Nat)) (rid : K) :
    List (K × Nat) × Nat :=
  let newVersion := (dlookup versions rid).getD 0 + 1
  (dinsert versions rid newVersion, newVersion)

/-! ## ConcurrentCanvasManager.update_pixel (`concurrency_manager.py`, lines 217-239)

The source keys the lock on the string `f"canvas:{x // 50}_{y // 50}"`; the
chunk coordinates `(x // 50, y // 50)` carry the same information, so chunk
resource-ids are modelled as `Int × Int`.  Python `//` is floor division,
i.e. `Int.fdiv`. -/

/-- The pixel payload dict built by `place_pixel`:
`{'color': ..., 'timestamp': ..., 'user_id': ...}`.  `userId = none` models a
missing or empty (falsy) `user_id`. -/
structure PixelData where
  color : String
  ts : Nat
  userId : Option String
  deriving DecidableEq

/-- `chunk_id = f"{x // 50}_{y // 50}"`. -/
def chunkOf (x y : Int) : Int × Int := (Int.fdiv x 50, Int.fdiv y 50)

/-- One entry of `ConcurrentCanvasManager.update_queue`. -/
structure CMUpdate where
  pixelKey : Int × Int
  chunkId : Int × Int
  data : PixelData
  ts : Nat
  deriving DecidableEq

/-- The mutable state of `ConcurrentCanvasManager` touched by `update_pixel`:
the optimistic lock's version dict and the pending update queue. -/
structure CMState where
  versions : List ((Int × Int) × Nat)
  queue : List CMUpdate
  deriving DecidableEq

/-- `ConcurrentCanvasManager.update_pixel`: with an expected version, run
`check_and_update` and return `False` (no enqueue) on mismatch; with
`expected_version = None`, `force_update` the chunk version.  On the
surviving paths append one entry to the update queue and return `True`. -/
def cmUpdatePixel (st : CMState) (x y : Int) (pixelData : PixelData)
    (expectedVersion : Option Nat) (now : Nat) : CMState × Bool :=
  let chunkId := chunkOf x y
  let entry : CMUpdate := { pixelKey := (x, y), chunkId := chunkId, data := pixelData, ts := now }
  match expectedVersion with
  | some ev =>
      let r := checkAndUpdate st.versions chunkId ev
      if r.2 then ({ versions := r.1, queue := st.queue ++ [entry] }, true)
      else ({ st with versions := r.1 }, false)
  | none =>
      let r := forceUpdate st.versions chunkId
      ({ versions := r.1, queue := st.queue ++ [entry] }, true)

/-! ## TieredCacheService (`cache_service_v2.py`, lines 79-348)

The three tiers are modelled over an arbitrary key type `K` and value type
`V`.  Serialization (`_serialize` / `_deserialize`) is msgpack plus optional
gzip and round-trips the value; it is modelled as the identity, so the `raw`
payloads stored in L2/L3 and mirrored in L1 entries carry the value itself.
Time (`datetime.now()`) is a `Nat` parameter `now`; absolute expiry instants
(`expires`, and the instant at which a Redis key with a TTL dies) are `Nat`s
on the same clock.  Redis (L2) evicts a key exactly when its TTL runs out,
so a lookup in L2 yields the payload only while `expiresAt > now`, and its
`ttl` command yields `expiresAt - now`.  The cache-metrics counters do not
affect any claim and are omitted. -/

/-- An `_l1_cache` slot: either a wrapped entry
`{'value': ..., 'raw': ..., 'expires': ...}` or a plain value (as stored by
`increment`), which the source detects by an `isinstance`/`'expires' in`
check and which never expires. -/
inductive L1Entry (V : Type) where
  | plain (v : V)
  | wrapped (value : V) (raw : V) (expires : Nat)
  deriving DecidableEq

/-- State of `TieredCacheService`: L1 dict and LRU order list, L2 (Redis)
contents as payload plus absolute expiry instant, L3 (disk) cache files as
`{'data': raw, 'expires': ...}`, and the `use_redis` flag. -/
structure TCState (K V : Type) where
  l1 : List (K × L1Entry V)
  l1Order : List K
  l2 : List (K × (V × Nat))
  l3 : List (K × (V × Nat))
  useRedis : Bool
  deriving DecidableEq

/-- The eviction loop of `_update_l1_lru`:
`while len(self._l1_order) > self.l1_max_size: evict the head from the order
list and delete it from the L1 dict`. -/
def evictLoop {K V : Type} [DecidableEq K] (maxSize : Nat) :
    List K → List (K × L1Entry V) → List K × List (K × L1Entry V)
  | [], cache => ([], cache)
  | k :: rest, cache =>
      if rest.length + 1 > maxSize then evictLoop maxSize rest (dremove cache k)
      else (k :: rest, cache)

/-- `TieredCacheService._update_l1_lru` (lines 158-169): move `key` to the
back of the access-order list (removing its previous position if present),
then evict oldest entries while the list is over `l1_max_size`. -/
def updateL1Lru {K V : Type} [DecidableEq K] (maxSize : Nat)
    (cache : List (K × L1Entry V)) (order : List K) (key : K) :
    List (K × L1Entry V) × List K :=
  let order1 := (if key ∈ order then order.erase key else order) ++ [key]
  let r := evictLoop maxSize order1 cache
  (r.2, r.1)

/-- The L3 (disk) leg of `TieredCacheService.get`: read the cache file if it
exists; if unexpired, promote to L1 (same absolute expiry) and, when Redis
is up, to L2 with the remaining TTL, and return the value; if expired,
remove the file and miss.  `l3ReadFails` models an exception while reading
the file (caught, logged, falls through to the miss). -/
def tcGetL3 {K V : Type} [DecidableEq K] (maxSize now : Nat) (st : TCState K V)
    (key : K) (l3ReadFails : Bool) : Option V × TCState K V :=
  match dlookup st.l3 key with
  | some (raw, expires) =>
      if l3ReadFails then (none, st)
      else if expires > now then
        let value := raw
        let remaining := expires - now
        if remaining > 0 then
          let r := updateL1Lru maxSize
            (dinsert st.l1 key (L1Entry.wrapped value raw expires)) st.l1Order key
          let st1 := { st with l1 := r.1, l1Order := r.2 }
          let st2 := if st1.useRedis
            then { st1 with l2 := dinsert st1.l2 key (raw, now + remaining) }
            else st1
          (some value, st2)
        else (some value, st)
      else (none, { st with l3 := dremove st.l3 key })
  | none => (none, st)

/-- The L2 (Redis) leg of `TieredCacheService.get`: if Redis is up and holds
an unexpired entry, promote it to L1 with the remaining TTL and return it;
otherwise fall through to the disk tier.  `l2GetFails` models a Redis
exception (caught, logged, falls through to L3). -/
def tcGetL2 {K V : Type} [DecidableEq K] (maxSize now : Nat) (st : TCState K V)
    (key : K) (l2GetFails l3ReadFails : Bool) : Option V × TCState K V :=
  if st.useRedis ∧ ¬l2GetFails then
    match dlookup st.l2 key with
    | some (raw, expiresAt) =>
        if expiresAt > now then
          let value := raw
          let ttl := expiresAt - now
          if ttl > 0 then
            let r := updateL1Lru maxSize
              (dinsert st.l1 key (L1Entry.wrapped value raw (now + ttl))) st.l1Order key
            (some value, { st with l1 := r.1, l1Order := r.2 })
          else (some value, st)
        else tcGetL3 maxSize now st key l3ReadFails
    | none => tcGetL3 maxSize now st key l3ReadFails
  else tcGetL3 maxSize now st key l3ReadFails

/-- `TieredCacheService.get` (lines 176-262): check L1; an unexpired L1 hit
refreshes the LRU order and returns immediately; an expired L1 entry is
deleted from the L1 dict and the lookup falls through to L2, then L3. -/
def tcGet {K V : Type} [DecidableEq K] (maxSize now : Nat) (st : TCState K V)
    (key : K) (l2GetFails l3ReadFails : Bool) : Option V × TCState K V :=
  match dlookup st.l1 key with
  | some (L1Entry.wrapped value _raw expires) =>
      if now > expires then
        tcGetL2 maxSize now { st with l1 := dremove st.l1 key } key l2GetFails l3ReadFails
      else
        let r := updateL1Lru maxSize st.l1 st.l1Order key
        (some value, { st with l1 := r.1, l1Order := r.2 })
  | some (L1Entry.plain v) =>
      let r := updateL1Lru maxSize st.l1 st.l1Order key
      (some v, { st with l1 := r.1, l1Order := r.2 })
  | none => tcGetL2 maxSize now st key l2GetFails l3ReadFails

/-- `TieredCacheService.set` (lines 263-310).  `l1PathFails` models an
exception raised before the L1 write completes (the serialization step);
the outer `except` then returns `False` with nothing mutated.  A Redis
error (`l2SetFails`) and a disk-write error (`l3WriteFails`) are each
caught by their inner `except`, logged, and skipped — the write still
returns `True`. -/
def tcSet {K V : Type} [DecidableEq K] (maxSize now : Nat) (st : TCState K V)
    (key : K) (value : V) (expire : Nat)
    (l1PathFails l2SetFails l3WriteFails : Bool) : TCState K V × Bool :=
  if l1PathFails then (st, false)
  else
    let raw := value
    let expires := now + expire
    let r := updateL1Lru maxSize
      (dinsert st.l1 key (L1Entry.wrapped value raw expires)) st.l1Order key
    let st1 := { st with l1 := r.1, l1Order := r.2 }
    let st2 := if st1.useRedis ∧ ¬l2SetFails
      then { st1 with l2 := dinsert st1.l2 key (raw, now + expire) }
      else st1
    let st3 := if ¬l3WriteFails
      then { st2 with l3 := dinsert st2.l3 key (raw, expires) }
      else st2
    (st3, true)

/-! ## MuralCacheV2.update_pixel (`cache_service_v2.py`, lines 563-607)

`MuralCacheV2` drives the tiered cache through string keys
(`mural:canvas:chunk:{cx}_{cy}`, `mural:user_pixels:{uid}`,
`mural:total_pixels`, `mural:pixel_history:{x}:{y}`, `mural:canvas:v2`); the
key formats are injective, so the per-key-family contents are modelled as
separate fields keyed by the interpolated data.  The cache is taken at its
sequential ideal semantics (entries do not expire between the operations of
one call, every tier write lands), which is the semantics under which the
counter claims are stated. -/

/-- One element of a `mural:pixel_history:{x}:{y}` list:
`{'timestamp': ..., 'color': ..., 'user_id': ...}`. -/
structure HistEntry where
  ts : Nat
  color : String
  userId : Option String
  deriving DecidableEq

/-- Python `lst[-10:]`: keep the last `n` elements. -/
def keepLast {α : Type} (n : Nat) (l : List α) : List α := l.drop (l.length - n)

/-- The cache contents touched by `MuralCacheV2.update_pixel`: per-chunk
pixel dicts, per-pixel histories, per-user pixel counters, the total-pixel
counter and the full-canvas entry (only its presence matters: `update_pixel`
ends by deleting it). -/
structure MuralState where
  chunks : List ((Int × Int) × List ((Int × Int) × PixelData))
  history : List ((Int × Int) × List HistEntry)
  perUser : List (String × Int)
  total : Int
  fullCanvasCached : Bool
  deriving DecidableEq

/-- `tiered_cache.increment(key, amount)` on a counter dict: missing key
counts as 0. -/
def incrCounter (d : List (String × Int)) (k : String) (amount : Int) :
    List (String × Int) :=
  dinsert d k ((dlookup d k).getD 0 + amount)

/-- `MuralCacheV2.update_pixel`: write the pixel into its chunk's cached
dict, append to the bounded per-pixel history, then adjust counters — the
old owner is decremented only when present and different from the new one,
the new owner is incremented whenever present, and the total is incremented
when the coordinate held no pixel — and finally invalidate the full-canvas
entry.  Returns `True`. -/
def muralUpdatePixel (x y : Int) (pixelData : PixelData) (st : MuralState) :
    MuralState × Bool :=
  let pixelKey := (x, y)
  let chunkId := chunkOf x y
  -- chunk = tiered_cache.get(chunk_key) or {}
  let chunk := (dlookup st.chunks chunkId).getD []
  -- old_pixel = chunk.get(pixel_key, {});  `{}` is falsy, i.e. `none`
  let oldPixel := dlookup chunk pixelKey
  let chunk1 := dinsert chunk pixelKey pixelData
  let st1 := { st with chunks := dinsert st.chunks chunkId chunk1 }
  -- history = (tiered_cache.get(history_key) or []) + [entry], kept to 10
  let hist := (dlookup st1.history pixelKey).getD []
  let hist1 := keepLast 10
    (hist ++ [{ ts := pixelData.ts, color := pixelData.color, userId := pixelData.userId }])
  let st2 := { st1 with history := dinsert st1.history pixelKey hist1 }
  let newUserId := pixelData.userId
  let oldUserId := oldPixel.bind (·.userId)
  -- if old_user_id and old_user_id != new_user_id: decrement old owner
  let st3 := match oldUserId with
    | some ou =>
        if some ou ≠ newUserId
        then { st2 with perUser := incrCounter st2.perUser ou (-1) }
        else st2
    | none => st2
  -- if new_user_id: increment new owner
  let st4 := match newUserId with
    | some nu => { st3 with perUser := incrCounter st3.perUser nu 1 }
    | none => st3
  -- if not old_pixel: increment total
  let st5 := if oldPixel = none then { st4 with total := st4.total + 1 } else st4
  ({ st5 with fullCanvasCached := false }, true)

/-- The empty cache state. -/
def muralInit : MuralState :=
  { chunks := [], history := [], perUser := [], total := 0, fullCanvasCached := false }

/-! ## DeltaCompressionStorage (`data_storage.py`, lines 283-383)

The underlying `OptimizedDataStorage` save/load round-trips the stored
object (msgpack/lz4 with checksum), so for the delta layer it is modelled
as a per-key slot holding the value itself.  `save_with_delta`/
`load_with_delta` for a given `filename` touch exactly the two storage keys
`f"{filename}_base"` and `f"{filename}_delta"` plus the in-memory snapshot
`self.base_snapshots[base_key]`; the state below is that triple. -/

/-- The delta dict built by `_calculate_delta`:
`{'added': {...}, 'modified': {...}, 'deleted': [...]}`. -/
structure Delta (K V : Type) where
  added : List (K × V)
  modified : List (K × V)
  deleted : List K
  deriving DecidableEq

/-- `DeltaCompressionStorage._calculate_delta`: entries of `current` whose
key is absent from `base` are added; entries whose key is in `base` with a
different value are modified; keys of `base` absent from `current` are
deleted (each in iteration order). -/
def calcDelta {K V : Type} [DecidableEq K] [DecidableEq V]
    (base current : List (K × V)) : Delta K V :=
  { added := current.filter (fun p => (dlookup base p.1).isNone)
    modified := current.filter
      (fun p => (dlookup base p.1).isSome ∧ dlookup base p.1 ≠ some p.2)
    deleted := (base.map Prod.fst).filter (fun k => (dlookup current k).isNone) }

/-- `DeltaCompressionStorage._apply_delta`: starting from a copy of `base`,
write every added entry, then every modified entry, then pop every deleted
key. -/
def applyDelta {K V : Type} [DecidableEq K] (base : List (K × V))
    (delta : Delta K V) : List (K × V) :=
  let r1 := delta.added.foldl (fun d p => dinsert d p.1 p.2) base
  let r2 := delta.modified.foldl (fun d p => dinsert d p.1 p.2) r1
  delta.deleted.foldl (fun d k => dremove d k) r2

/-- What the delta slot of storage can hold: `cleared` models the empty dict
`{}` written when a new base snapshot is promoted (falsy on load), `delta`
a real delta dict (truthy: it always carries its three keys). -/
inductive DeltaFile (K V : Type) where
  | cleared
  | delta (d : Delta K V)
  deriving DecidableEq

/-- State of `DeltaCompressionStorage` for one filename: the `_base` storage
slot, the `_delta` storage slot, and the in-memory base snapshot. -/
structure DeltaStore (K V : Type) where
  baseFile : Option (List (K × V))
  deltaFile : Option (DeltaFile K V)
  snapshot : Option (List (K × V))
  deriving DecidableEq

/-- The tail of `save_with_delta` once a base snapshot `b` is in hand:
compute the delta; if its serialized size exceeds 30% of the base's
(decided by `tooLarge`, which stands for the comparison of the two
`len(json.dumps(...))` values — every claim below holds for either
outcome), promote `data` to a new base snapshot and clear the delta slot,
else persist only the delta. -/
def saveStep {K V : Type} [DecidableEq K] [DecidableEq V]
    (tooLarge : Delta K V → List (K × V) → Bool) (st : DeltaStore K V)
    (b data : List (K × V)) : DeltaStore K V :=
  let delta := calcDelta b data
  if tooLarge delta b then
    { baseFile := some data, deltaFile := some DeltaFile.cleared, snapshot := some data }
  else
    { st with deltaFile := some (DeltaFile.delta delta) }

/-- `DeltaCompressionStorage.save_with_delta`: if no snapshot is in memory,
load the base slot — a stored, truthy (non-empty) base becomes the
snapshot; otherwise this is the first save: store `data` as the base and
snapshot and return (the delta slot is left untouched).  With a snapshot in
hand, proceed to the delta computation. -/
def saveWithDelta {K V : Type} [DecidableEq K] [DecidableEq V]
    (tooLarge : Delta K V → List (K × V) → Bool) (st : DeltaStore K V)
    (data : List (K × V)) : DeltaStore K V :=
  match st.snapshot with
  | some b => saveStep tooLarge st b data
  | none =>
      match st.baseFile with
      | some b =>
          if b.isEmpty then { st with baseFile := some data, snapshot := some data }
          else saveStep tooLarge { st with snapshot := some b } b data
      | none => { st with baseFile := some data, snapshot := some data }

/-- The delta-storage states arising in use: either nothing has been saved
yet, or the in-memory snapshot coincides with the non-empty, duplicate-free
base dictionary on disk (every save of a non-empty dictionary stores the
same dictionary in both places). -/
def GoodStore {K V : Type} (st : DeltaStore K V) : Prop :=
  (st.snapshot = none ∧ st.baseFile = none ∧ st.deltaFile = none)
  ∨ (∃ b, st.snapshot = some b ∧ st.baseFile = some b ∧ b ≠ [] ∧ NodupKeys b)

/-- `DeltaCompressionStorage.load_with_delta`: load the base slot (a missing
or empty base yields `None`); apply the delta slot when it holds a truthy
delta dict. -/
def loadWithDelta {K V : Type} [DecidableEq K] (st : DeltaStore K V) :
    Option (List (K × V)) :=
  match st.baseFile with
  | none => none
  | some b =>
      if b.isEmpty then none
      else
        match st.deltaFile with
        | none => some b
        | some DeltaFile.cleared => some b
        | some (DeltaFile.delta d) => some (applyDelta b d)

/-! ## OptimizedDataStorage.save (`data_storage.py`, lines 79-136)

The destination file finally holds a 4-byte little-endian length prefix,
a JSON metadata header and the (possibly compressed) payload; the content
is modelled as the header record plus the serialized value, with the byte
lengths of msgpack serialization and lz4 compression supplied as abstract
size functions (`serLen`, `lz4Len`) and the SHA256 checksum as an abstract
function `cks` of the data — the claims about `save` concern its
control flow and atomicity, not the codec bytes. -/

/-- The `compression` tag recorded in the metadata header: data below the
1024-byte threshold is stored uncompressed. -/
inductive CompressionTag where
  | nocomp
  | lz4
  deriving DecidableEq

/-- The metadata header written before the payload. -/
structure SaveMeta where
  version : Nat
  compression : CompressionTag
  checksum : Nat
  originalSize : Nat
  compressedSize : Nat
  ts : Nat
  deriving DecidableEq

/-- A fully written storage file: length-prefixed metadata header plus
compressed payload (the payload is carried as the saved value itself). -/
structure FileContent (Data : Type) where
  header : SaveMeta
  payload : Data
  deriving DecidableEq

/-- The filesystem slots `save`/`load` touch for one filename: the
destination path, the `.tmp` path next to it, and the rolling backups. -/
structure SaveFs (Data : Type) where
  dest : Option (FileContent Data)
  tmp : Option (FileContent Data)
  backups : List (FileContent Data)
  deriving DecidableEq

/-- Where `save` can raise: serializing/compressing the data, writing the
temp file, or the final rename.  (`_create_backup` catches its own
exceptions and never aborts the save.) -/
inductive SaveFailure where
  | serializeStep
  | writeStep
  | renameStep
  deriving DecidableEq

/-- The file content `save` produces for `data`, given the serialized
length, the lz4-compressed length and the checksum function. -/
def mkContent {Data : Type} (serLen : Data → Nat) (lz4Len : Nat → Nat)
    (cks : Data → Nat) (now : Nat) (data : Data) : FileContent Data :=
  let serializedSize := serLen data
  let compressed := if serializedSize < 1024 then (serializedSize, CompressionTag.nocomp)
    else (lz4Len serializedSize, CompressionTag.lz4)
  { header :=
      { version := 2
        compression := compressed.2
        checksum := cks data
        originalSize := serializedSize
        compressedSize := compressed.1
        ts := now }
    payload := data }

/-- `if create_backup and filepath.exists(): self._create_backup(filename)` —
copy the current destination into the backup set; never touches `dest`. -/
def doBackup {Data : Type} (st : SaveFs Data) (createBackup : Bool) : SaveFs Data :=
  if createBackup then
    match st.dest with
    | some c => { st with backups := st.backups ++ [c] }
    | none => st
  else st

/-- The temp-file cleanup in `save`'s `except` branch:
`if temp_filepath.exists(): temp_filepath.unlink()`. -/
def cleanupTmp {Data : Type} (st : SaveFs Data) : SaveFs Data := { st with tmp := none }

/-- `OptimizedDataStorage.save`: serialize, compress, checksum; back up the
existing destination; write the full content to the `.tmp` path; atomically
rename it over the destination; return `True`.  If any step raises
(`fail`), the `except` branch removes the temp file and returns `False`,
leaving the destination as it was. -/
def storageSave {Data : Type} (serLen : Data → Nat) (lz4Len : Nat → Nat)
    (cks : Data → Nat) (now : Nat) (st : SaveFs Data) (data : Data)
    (createBackup : Bool) (fail : Option SaveFailure) : SaveFs Data × Bool :=
  match fail with
  | some SaveFailure.serializeStep => (cleanupTmp st, false)
  | some SaveFailure.writeStep => (cleanupTmp (doBackup st createBackup), false)
  | some SaveFailure.renameStep =>
      let st1 := doBackup st createBackup
      let st2 := { st1 with tmp := some (mkContent serLen lz4Len cks now data) }
      (cleanupTmp st2, false)
  | none =>
      let st1 := doBackup st createBackup
      let content := mkContent serLen lz4Len cks now data
      let st2 := { st1 with tmp := some content }
      ({ st2 with dest := some content, tmp := none }, true)

/-! ## WebSocket batching (`app_optimized.py`, lines 52-55 and 671-714)

`pixel_update_queue` and `pixel_batch_timer` are module globals;
`PIXEL_BATCH_SIZE = 20`, `PIXEL_BATCH_DELAY = 0.1`.  The
`threading.Timer` is modelled by the `timerSet` flag: arming the timer sets
it, and the delay elapsing is the event "`flush_pixel_batch` is invoked on
the current state".  Socket emissions are returned as an output list. -/

/-- The pixel-update dict queued for broadcast:
`{'x': ..., 'y': ..., 'color': ..., 'user_id': hashed}` (the SHA256-prefix
hashing of the user id is injective for distinct users at modelling level
and is carried as the id itself). -/
structure PixelUpdateMsg where
  x : Int
  y : Int
  color : String
  userId : String
  deriving DecidableEq

/-- A `socketio.emit`: either one `pixel_placed` event or one `pixel_batch`
event. -/
inductive Emission where
  | single (u : PixelUpdateMsg)
  | batch (us : List PixelUpdateMsg)
  deriving DecidableEq

/-- The notifier globals: the pending queue and whether a batch timer is
armed. -/
structure NotifState where
  queue : List PixelUpdateMsg
  timerSet : Bool
  deriving DecidableEq

/-- `PIXEL_BATCH_SIZE` (`app_optimized.py`, line 54). -/
def pixelBatchSize : Nat := 20

/-- `flush_pixel_batch`: cancel any armed timer; an empty queue flushes
nothing; otherwise drain the queue and emit a single `pixel_batch` event
when more than one update is pending, else one `pixel_placed` event. -/
def flushPixelBatch (st : NotifState) : NotifState × List Emission :=
  match st.queue with
  | [] => ({ st with timerSet := false }, [])
  | [u] => ({ queue := [], timerSet := false }, [Emission.single u])
  | us => ({ queue := [], timerSet := false }, [Emission.batch us])

/-- `batch_pixel_update`: append the update to the queue (it is a dict with
`x` and `y` by construction, so the validation guard passes); flush
synchronously once the queue reaches `PIXEL_BATCH_SIZE`, otherwise arm the
batch timer if none is armed. -/
def batchPixelUpdate (st : NotifState) (u : PixelUpdateMsg) :
    NotifState × List Emission :=
  let q := st.queue ++ [u]
  if pixelBatchSize ≤ q.length then flushPixelBatch { st with queue := q }
  else if ¬st.timerSet then ({ queue := q, timerSet := true }, [])
  else ({ st with queue := q }, [])

/-- Enqueue a sequence of updates one by one, collecting all emissions. -/
def runEnqueue (st : NotifState) : List PixelUpdateMsg → NotifState × List Emission
  | [] => (st, [])
  | u :: us =>
      let r := batchPixelUpdate st u
      let r2 := runEnqueue r.1 us
      (r2.1, r.2 ++ r2.2)

/-! ## place_pixel (`app_optimized.py`, lines 436-559)

The JSON-shape guards (`no data`, missing fields, non-integer coordinates)
concern requests that do not parse into typed arguments and are outside the
typed embedding; the model starts from the bounds check with
`x y : Int` and `color : String` in hand.  `CANVAS_WIDTH`/`CANVAS_HEIGHT`/
`PIXEL_COOLDOWN` are configuration parameters.  The cooldown cache entry
stores the cooldown-expiry instant (the cache TTL `actual_cooldown + 10`
only garbage-collects entries the code would ignore anyway).  The
cooldown-reduction upgrade percentage is passed in as `reductionPct`; with
no upgrades it is 0 and `int(base * (1 - 0/100)) = base`, matching the
integer formula used here. -/

/-- Python `re.match(r'^#[0-9A-Fa-f]{6}$', color)`.  In Python, `$` also
matches just before a single trailing newline, so an 8-character string
`'#' + 6 hex digits + '\n'` is accepted as well. -/
def colorRegexAccepts (s : String) : Bool :=
  match s.data with
  | '#' :: rest =>
      (rest.length = 6 && rest.all (fun c => c.isDigit || ('A' ≤ c && c ≤ 'F') || ('a' ≤ c && c ≤ 'f'))) ||
      (rest.length = 7 &&
        (rest.take 6).all (fun c => c.isDigit || ('A' ≤ c && c ≤ 'F') || ('a' ≤ c && c ≤ 'f')) &&
        rest.getLast? = some '\n')
  | _ => false

/-- Outcome of a `place_pixel` request (HTTP status and error string in the
source). -/
inductive PlaceResult where
  | outOfBounds
  | invalidFormat
  | cooldownActive (remaining : Nat)
  | storeFailed
  | placed (cooldownRemaining : Nat)
  deriving DecidableEq

/-- The shared state `place_pixel` touches: the canvas manager's versions
and update queue, the `MuralCacheV2` cache contents, the per-user cooldown
entries, and the broadcast notifier. -/
structure AppState where
  cm : CMState
  mural : MuralState
  cooldowns : List (String × Nat)
  notif : NotifState
  deriving DecidableEq

/-- The mutation tail of `place_pixel` after validation and cooldown pass:
build the pixel dict, write it through `canvas_manager.update_pixel` (no
expected version), mirror it into `MuralCacheV2`, store the new cooldown
expiry, and hand the update to `batch_pixel_update`. -/
def placePixelBody (pixelCooldown reductionPct now : Nat) (userId : String)
    (x y : Int) (color : String) (st : AppState) :
    PlaceResult × AppState × List Emission :=
  let pd : PixelData := { color := color, ts := now, userId := some userId }
  let rcm := cmUpdatePixel st.cm x y pd none now
  if rcm.2 = false then (PlaceResult.storeFailed, { st with cm := rcm.1 }, [])
  else
    let rmural := muralUpdatePixel x y pd st.mural
    let actualCooldown := pixelCooldown * (100 - reductionPct) / 100
    let cooldowns1 := dinsert st.cooldowns userId (now + actualCooldown)
    let rn := batchPixelUpdate st.notif { x := x, y := y, color := color, userId := userId }
    (PlaceResult.placed actualCooldown,
      { cm := rcm.1, mural := rmural.1, cooldowns := cooldowns1, notif := rn.1 },
      rn.2)

/-- `place_pixel`: reject out-of-bounds coordinates, then a color failing
the regex, then an unexpired cooldown — each before any state mutation —
and otherwise run the mutation tail. -/
def placePixel (width height : Int) (pixelCooldown reductionPct now : Nat)
    (userId : String) (x y : Int) (color : String) (st : AppState) :
    PlaceResult × AppState × List Emission :=
  if ¬(0 ≤ x ∧ x < width ∧ 0 ≤ y ∧ y < height) then (PlaceResult.outOfBounds, st, [])
  else if ¬colorRegexAccepts color then (PlaceResult.invalidFormat, st, [])
  else
    match dlookup st.cooldowns userId with
    | some cooldownTime =>
        if cooldownTime > now then
          (PlaceResult.cooldownActive (cooldownTime - now), st, [])
        else placePixelBody pixelCooldown reductionPct now userId x y color st
    | none => placePixelBody pixelCooldown reductionPct now userId x y color st

/-- The empty application state. -/
def appInit : AppState :=
  { cm := { versions := [], queue := [] }, mural := muralInit,
    cooldowns := [], notif := { queue := [], timerSet := false } }

/-! ## Dictionary lemmas -/

theorem dlookup_dinsert {K V : Type} [DecidableEq K] (d : List (K × V)) (k : K) (v : V)
    (q : K) : dlookup (dinsert d k v) q = if q = k then some v else dlookup d q := by
  induction d with
  | nil =>
      by_cases h : q = k
      · subst h; simp [dinsert, dlookup]
      · simp [dinsert, dlookup, h, Ne.symm h]
  | cons p rest ih =>
      obtain ⟨k0, v0⟩ := p
      by_cases h0 : k0 = k
      · subst h0
        by_cases h : q = k0
        · subst h; simp [dinsert, dlookup]
        · simp [dinsert, dlookup, h, Ne.symm h]
      · by_cases h : k0 = q
        · subst h
          simp [dinsert, dlookup, h0]
        · simp [dinsert, dlookup, h0, h, ih]

theorem dlookup_eq_none_iff {K V : Type} [DecidableEq K] (d : List (K × V)) (q : K) :
    dlookup d q = none ↔ q ∉ d.map Prod.fst := by
  induction d with
  | nil => simp [dlookup]
  | cons p rest ih =>
      obtain ⟨k0, v0⟩ := p
      by_cases h : k0 = q
      · subst h; simp [dlookup]
      · simp [dlookup, h, ih, Ne.symm h]

theorem dlookup_mem {K V : Type} [DecidableEq K] {d : List (K × V)} {q : K} {v : V}
    (h : dlookup d q = some v) : (q, v) ∈ d := by
  induction d with
  | nil => simp [dlookup] at h
  | cons p rest ih =>
      obtain ⟨k0, v0⟩ := p
      by_cases hk : k0 = q
      · subst hk
        simp [dlookup] at h
        simp [h]
      · simp [dlookup, hk] at h
        exact List.mem_cons_of_mem _ (ih h)

theorem dlookup_of_mem_nodup {K V : Type} [DecidableEq K] {d : List (K × V)} {q : K}
    {v : V} (hd : NodupKeys d) (h : (q, v) ∈ d) : dlookup d q = some v := by
  induction d with
  | nil => simp at h
  | cons p rest ih =>
      obtain ⟨k0, v0⟩ := p
      rcases List.mem_cons.mp h with h1 | h2
      · injection h1 with hq hv
        subst hq; subst hv
        simp [dlookup]
      · have hk : k0 ≠ q := by
          rintro rfl
          have : k0 ∈ rest.map Prod.fst := List.mem_map.mpr ⟨(k0, v), h2, rfl⟩
          exact (List.nodup_cons.mp hd).1 this
        have hrest : NodupKeys rest := (List.nodup_cons.mp hd).2
        simp [dlookup, hk, ih hrest h2]

theorem dremove_sublist {K V : Type} [DecidableEq K] (d : List (K × V)) (k : K) :
    (dremove d k).Sublist d := by
  induction d with
  | nil => simp [dremove]
  | cons p rest ih =>
      obtain ⟨k0, v0⟩ := p
      by_cases h : k0 = k
      · simp [dremove, h]
      · simpa [dremove, h] using ih.cons₂ (k0, v0)

theorem nodupKeys_dremove {K V : Type} [DecidableEq K] {d : List (K × V)} (k : K)
    (hd : NodupKeys d) : NodupKeys (dremove d k) :=
  hd.sublist ((dremove_sublist d k).map Prod.fst)

theorem dlookup_dremove_ne {K V : Type} [DecidableEq K] (d : List (K × V)) {k q : K}
    (h : k ≠ q) : dlookup (dremove d k) q = dlookup d q := by
  induction d with
  | nil => simp [dremove]
  | cons p rest ih =>
      obtain ⟨k0, v0⟩ := p
      by_cases h0 : k0 = k
      · subst h0
        simp [dremove, dlookup, h]
      · simp [dremove, dlookup, h0, ih]

theorem dlookup_dremove_self {K V : Type} [DecidableEq K] {d : List (K × V)} (k : K)
    (hd : NodupKeys d) : dlookup (dremove d k) k = none := by
  induction d with
  | nil => simp [dremove, dlookup]
  | cons p rest ih =>
      obtain ⟨k0, v0⟩ := p
      by_cases h0 : k0 = k
      · subst h0
        have : k0 ∉ rest.map Prod.fst := (List.nodup_cons.mp hd).1
        simp [dremove, (dlookup_eq_none_iff rest k0).mpr this]
      · simp [dremove, dlookup, h0, ih ((List.nodup_cons.mp hd).2)]

theorem keys_dinsert {K V : Type} [DecidableEq K] (d : List (K × V)) (k : K) (v : V) :
    (dinsert d k v).map Prod.fst =
      if k ∈ d.map Prod.fst then d.map Prod.fst else d.map Prod.fst ++ [k] := by
  induction d with
  | nil => simp [dinsert]
  | cons p rest ih =>
      obtain ⟨k0, v0⟩ := p
      by_cases h0 : k0 = k
      · subst h0
        simp [dinsert]
      · have hne : ¬k = k0 := fun hh => h0 hh.symm
        by_cases hmem : k ∈ rest.map Prod.fst <;>
          simp [dinsert, h0, hne, hmem, ih]

theorem nodupKeys_dinsert {K V : Type} [DecidableEq K] {d : List (K × V)} (k : K)
    (v : V) (hd : NodupKeys d) : NodupKeys (dinsert d k v) := by
  unfold NodupKeys at *
  rw [keys_dinsert]
  by_cases h : k ∈ d.map Prod.fst
  · simpa [h] using hd
  · simp [h, List.nodup_append, hd]

/-! ## Claim theorems: optimistic locking (C2) and canvas-manager writes (C8) -/

/-- Claim C2: the optimistic check-and-update succeeds exactly when the
expected version equals the current version (an unset resource reading as
version 0); on success the stored version becomes `expected + 1` (which is
also current + 1, so successive successful writers see versions increasing
by exactly 1), and on failure the version map is completely unchanged — a
stale expected version is rejected, never applied. -/
theorem claim_C2 (versions : List (String × Nat)) (rid : String) (expected : Nat) :
    ((checkAndUpdate versions rid expected).2 = true ↔ getVersion versions rid = expected)
    ∧ ((checkAndUpdate versions rid expected).2 = true →
        getVersion (checkAndUpdate versions rid expected).1 rid = expected + 1
        ∧ getVersion (checkAndUpdate versions rid expected).1 rid
            = getVersion versions rid + 1)
    ∧ ((checkAndUpdate versions rid expected).2 = false →
        (checkAndUpdate versions rid expected).1 = versions)
    ∧ getVersion ([] : List (String × Nat)) rid = 0 := by
  by_cases h : (dlookup versions rid).getD 0 = expected <;>
    exact ⟨by simp [checkAndUpdate, getVersion, h],
      by simp [checkAndUpdate, getVersion, h, dlookup_dinsert],
      by simp [checkAndUpdate, getVersion, h],
      by simp [getVersion, dlookup]⟩

/-- Witness for C2 at a concrete input: from the empty version map, a write
expecting version 0 succeeds and stores version 1. -/
theorem claim_C2_witness :
    (checkAndUpdate ([] : List (String × Nat)) "canvas" 0).2 = true
    ∧ getVersion (checkAndUpdate ([] : List (String × Nat)) "canvas" 0).1 "canvas" = 1 :=
  ⟨(claim_C2 [] "canvas" 0).1.mpr rfl,
    ((claim_C2 [] "canvas" 0).2.1 ((claim_C2 [] "canvas" 0).1.mpr rfl)).1⟩

/-- Claim C8: `ConcurrentCanvasManager.update_pixel` called without an
expected version always returns `True`, force-advances the containing
chunk's version by exactly 1, and appends exactly one entry for that pixel
to the pending update queue. -/
theorem claim_C8 (st : CMState) (x y : Int) (pd : PixelData) (now : Nat) :
    (cmUpdatePixel st x y pd none now).2 = true
    ∧ getVersion (cmUpdatePixel st x y pd none now).1.versions (chunkOf x y)
        = getVersion st.versions (chunkOf x y) + 1
    ∧ (cmUpdatePixel st x y pd none now).1.queue
        = st.queue ++ [{ pixelKey := (x, y), chunkId := chunkOf x y, data := pd, ts := now }] := by
  refine ⟨rfl, ?_, rfl⟩
  simp [cmUpdatePixel, forceUpdate, getVersion, dlookup_dinsert]

/-! ## Claim C1: incremental counter maintenance in MuralCacheV2.update_pixel

The incremental rule holds for the new-pixel case and the owner-change
overwrite, but fails for a same-owner overwrite: the decrement is guarded
by `old_user_id != new_user_id`, while the increment `if new_user_id:` is
unconditional, so writing the identical pixel twice drives the owner's
cached count from 1 to 2 even though `totalPixels` correctly stays 1.  The
theorem below evaluates the embedded code on that failing input (and shows
the first call behaving as claimed). -/

/-- Claim C1, evaluated at the failing input: placing the identical pixel
`(10, 10, "#FF0000", owner "A")` twice from the empty cache leaves
`totalPixels` at 1 as claimed, but the second call increments
`perUserPixels["A"]` from 1 to 2, contradicting the claimed no-change rule
for a same-owner overwrite. -/
theorem claim_C1 :
    (dlookup (muralUpdatePixel 10 10 ⟨"#FF0000", 0, some "A"⟩ muralInit).1.perUser "A").getD 0 = 1
    ∧ (muralUpdatePixel 10 10 ⟨"#FF0000", 0, some "A"⟩ muralInit).1.total = 1
    ∧ (muralUpdatePixel 10 10 ⟨"#FF0000", 0, some "A"⟩
        (muralUpdatePixel 10 10 ⟨"#FF0000", 0, some "A"⟩ muralInit).1).1.total = 1
    ∧ (dlookup (muralUpdatePixel 10 10 ⟨"#FF0000", 0, some "A"⟩
        (muralUpdatePixel 10 10 ⟨"#FF0000", 0, some "A"⟩ muralInit).1).1.perUser "A").getD 0
        = 2 := by
  decide

/-! ## Claim C4: place_pixel input validation

Both rejections work and precede every mutation, but the color check is
`re.match(r'^#[0-9A-Fa-f]{6}$', color)`, and in Python `$` also matches
just before a trailing newline — so the 8-character string
`"#00FF00\n"`, which the claim requires to be rejected, is accepted and
the pixel write goes through. -/

/-- Claim C4, evaluated on concrete requests (`canvas 500×500`, cooldown
300 s, no upgrades, empty state): an out-of-bounds coordinate and a
malformed color are each rejected before any mutation, but the
not-7-character color `"#00FF00\n"` passes the regex and the request is
accepted, mutating the pixel store queue — contradicting the claimed
rejection of every color that is not exactly `'#'` plus 6 hex digits. -/
theorem claim_C4 :
    placePixel 500 500 300 0 0 "u" 500 0 "#00FF00" appInit
      = (PlaceResult.outOfBounds, appInit, [])
    ∧ placePixel 500 500 300 0 0 "u" 0 0 "00FF00" appInit
      = (PlaceResult.invalidFormat, appInit, [])
    ∧ colorRegexAccepts "#00FF00\n" = true
    ∧ (placePixel 500 500 300 0 0 "u" 0 0 "#00FF00\n" appInit).1 = PlaceResult.placed 300
    ∧ (placePixel 500 500 300 0 0 "u" 0 0 "#00FF00\n" appInit).2.1.cm.queue.length = 1 := by
  decide

/-! ## Claim C6: tiered set favors availability -/

/-- Claim C6: `TieredCacheService.set` reports success exactly when the L1
path does not raise — a Redis (L2) failure or a disk (L3) failure is logged
and skipped, never turning the result into a failure — and when the L1 path
raises nothing has been mutated and the result is `False`. -/
theorem claim_C6 {K V : Type} [DecidableEq K] (maxSize now : Nat) (st : TCState K V)
    (key : K) (value : V) (expire : Nat) (l1PathFails l2SetFails l3WriteFails : Bool) :
    ((tcSet maxSize now st key value expire l1PathFails l2SetFails l3WriteFails).2 = true
      ↔ l1PathFails = false)
    ∧ (l1PathFails = true →
        tcSet maxSize now st key value expire l1PathFails l2SetFails l3WriteFails
          = (st, false)) := by
  cases l1PathFails <;> simp [tcSet]

/-- Witness for C6 at concrete inputs: with both L2 and L3 failing the set
still succeeds, and with the L1 path failing it returns `False` with the
state untouched. -/
theorem claim_C6_witness :
    (tcSet 10 0 (⟨[], [], [], [], true⟩ : TCState Nat Nat) 0 5 60 false true true).2 = true
    ∧ tcSet 10 0 (⟨[], [], [], [], true⟩ : TCState Nat Nat) 0 5 60 true false false
        = (⟨[], [], [], [], true⟩, false) :=
  ⟨(claim_C6 10 0 ⟨[], [], [], [], true⟩ 0 5 60 false true true).1.mpr rfl,
    (claim_C6 10 0 ⟨[], [], [], [], true⟩ 0 5 60 true false false).2 rfl⟩

/-! ## Claim C9: atomic durable save -/

/-- Claim C9: `OptimizedDataStorage.save` writes the full content
(metadata header plus compressed payload) to the `.tmp` path and renames it
over the destination only on success; on any raised step it returns
`False`, the destination file is unchanged, and the temp file has been
removed. -/
theorem claim_C9 {Data : Type} (serLen : Data → Nat) (lz4Len : Nat → Nat)
    (cks : Data → Nat) (now : Nat) (st : SaveFs Data) (data : Data) (cb : Bool)
    (fail : Option SaveFailure) :
    ((storageSave serLen lz4Len cks now st data cb fail).2 = true ↔ fail = none)
    ∧ (fail = none →
        (storageSave serLen lz4Len cks now st data cb fail).1.dest
            = some (mkContent serLen lz4Len cks now data)
        ∧ (storageSave serLen lz4Len cks now st data cb fail).1.tmp = none)
    ∧ (fail ≠ none →
        (storageSave serLen lz4Len cks now st data cb fail).2 = false
        ∧ (storageSave serLen lz4Len cks now st data cb fail).1.dest = st.dest
        ∧ (storageSave serLen lz4Len cks now st data cb fail).1.tmp = none) := by
  obtain ⟨d, t, bks⟩ := st
  cases fail with
  | none => cases d <;> cases cb <;> simp [storageSave, doBackup, cleanupTmp]
  | some f => cases f <;> cases d <;> cases cb <;> simp [storageSave, doBackup, cleanupTmp]

/-- Witness for C9 at concrete inputs: a clean save succeeds, and a save
that raises at the rename step leaves the (empty) destination untouched
with no temp file behind. -/
theorem claim_C9_witness :
    (storageSave (fun n : Nat => n) (fun n => n) (fun n => n) 0
        ⟨none, none, []⟩ 7 true none).2 = true
    ∧ (storageSave (fun n : Nat => n) (fun n => n) (fun n => n) 0
        ⟨none, none, []⟩ 7 true (some SaveFailure.renameStep)).1.dest = none
    ∧ (storageSave (fun n : Nat => n) (fun n => n) (fun n => n) 0
        ⟨none, none, []⟩ 7 true (some SaveFailure.renameStep)).1.tmp = none :=
  ⟨(claim_C9 (fun n : Nat => n) (fun n => n) (fun n => n) 0 ⟨none, none, []⟩ 7 true
      none).1.mpr rfl,
    ((claim_C9 (fun n : Nat => n) (fun n => n) (fun n => n) 0 ⟨none, none, []⟩ 7 true
      (some SaveFailure.renameStep)).2.2 (by simp)).2.1,
    ((claim_C9 (fun n : Nat => n) (fun n => n) (fun n => n) 0 ⟨none, none, []⟩ 7 true
      (some SaveFailure.renameStep)).2.2 (by simp)).2.2⟩

/-! ## Claim C10: the L1 LRU order list is bounded -/

theorem dlookup_dremove_none {K V : Type} [DecidableEq K] {d : List (K × V)} {q : K}
    (k : K) (h : dlookup d q = none) : dlookup (dremove d k) q = none := by
  rw [dlookup_eq_none_iff] at h ⊢
  exact fun hm => h (((dremove_sublist d k).map Prod.fst).subset hm)

theorem evictLoop_drop {K V : Type} [DecidableEq K] (maxSize : Nat) :
    ∀ (order : List K) (cache : List (K × L1Entry V)),
      (evictLoop maxSize order cache).1 = order.drop (order.length - maxSize) := by
  intro order
  induction order with
  | nil => intro cache; simp [evictLoop]
  | cons a rest ih =>
      intro cache
      by_cases h : rest.length + 1 > maxSize
      · have h2 : rest.length + 1 - maxSize = (rest.length - maxSize) + 1 := by omega
        simp only [evictLoop, if_pos h, ih, List.length_cons, h2, List.drop_succ_cons]
      · have h2 : rest.length + 1 - maxSize = 0 := by omega
        simp only [evictLoop, if_neg h, List.length_cons, h2, List.drop_zero]

theorem evictLoop_lookup_none {K V : Type} [DecidableEq K] (maxSize : Nat) :
    ∀ (order : List K) (cache : List (K × L1Entry V)) (q : K),
      dlookup cache q = none → dlookup (evictLoop maxSize order cache).2 q = none := by
  intro order
  induction order with
  | nil => intro cache q h; simpa [evictLoop] using h
  | cons a rest ih =>
      intro cache q h
      by_cases hc : rest.length + 1 > maxSize
      · simp only [evictLoop, if_pos hc]
        exact ih (dremove cache a) q (dlookup_dremove_none a h)
      · simpa [evictLoop, hc] using h

theorem evictLoop_popped_none {K V : Type} [DecidableEq K] (maxSize : Nat) :
    ∀ (order : List K) (cache : List (K × L1Entry V)), NodupKeys cache →
      ∀ q ∈ order.take (order.length - maxSize),
        dlookup (evictLoop maxSize order cache).2 q = none := by
  intro order
  induction order with
  | nil => intro cache _ q hq; simp at hq
  | cons a rest ih =>
      intro cache hcache q hq
      by_cases h : rest.length + 1 > maxSize
      · have h1 : (a :: rest).length - maxSize = (rest.length - maxSize) + 1 := by
          simp only [List.length_cons]; omega
        rw [h1, List.take_succ_cons] at hq
        simp only [evictLoop, if_pos h]
        rcases List.mem_cons.mp hq with rfl | hq2
        · exact evictLoop_lookup_none maxSize rest (dremove cache q) q
            (dlookup_dremove_self q hcache)
        · exact ih (dremove cache a) (nodupKeys_dremove a hcache) q hq2
      · have h1 : (a :: rest).length - maxSize = 0 := by
          simp only [List.length_cons]; omega
        rw [h1] at hq
        simp at hq

/-- Claim C10: after every call to `_update_l1_lru` the access-order list
has length at most `l1_max_size`; concretely it is the final segment of the
freshly-touched order list (move-to-back of `key`, then drop the oldest
down to the bound), and every dropped (oldest) key has also been deleted
from the L1 map. -/
theorem claim_C10 {K V : Type} [DecidableEq K] (maxSize : Nat)
    (cache : List (K × L1Entry V)) (order : List K) (key : K) (hc : NodupKeys cache) :
    ((updateL1Lru maxSize cache order key).2).length ≤ maxSize
    ∧ (updateL1Lru maxSize cache order key).2
        = (((if key ∈ order then order.erase key else order) ++ [key]).drop
            ((((if key ∈ order then order.erase key else order) ++ [key])).length - maxSize))
    ∧ ∀ q ∈ (((if key ∈ order then order.erase key else order) ++ [key])).take
          ((((if key ∈ order then order.erase key else order) ++ [key])).length - maxSize),
        dlookup (updateL1Lru maxSize cache order key).1 q = none := by
  refine ⟨?_, ?_, ?_⟩
  · simp only [updateL1Lru, evictLoop_drop, List.length_drop]
    omega
  · simp only [updateL1Lru, evictLoop_drop]
  · intro q hq
    simp only [updateL1Lru]
    exact evictLoop_popped_none maxSize _ cache hc q hq

/-- Witness for C10 at a concrete input: with `l1_max_size = 1`, touching
key 3 with keys 1 and 2 cached leaves at most one key in the order list and
deletes the evicted keys 1 and 2 from the L1 map. -/
theorem claim_C10_witness :
    ((updateL1Lru 1 [(1, L1Entry.plain (5 : Nat)), (2, L1Entry.plain 6)] [1, 2]
        (3 : Nat)).2).length ≤ 1
    ∧ dlookup (updateL1Lru 1 [(1, L1Entry.plain (5 : Nat)), (2, L1Entry.plain 6)] [1, 2]
        (3 : Nat)).1 1 = none
    ∧ dlookup (updateL1Lru 1 [(1, L1Entry.plain (5 : Nat)), (2, L1Entry.plain 6)] [1, 2]
        (3 : Nat)).1 2 = none :=
  ⟨(claim_C10 1 [(1, L1Entry.plain 5), (2, L1Entry.plain 6)] [1, 2] 3
      (by simp [NodupKeys])).1,
    (claim_C10 1 [(1, L1Entry.plain 5), (2, L1Entry.plain 6)] [1, 2] 3
      (by simp [NodupKeys])).2.2 1 (by decide),
    (claim_C10 1 [(1, L1Entry.plain 5), (2, L1Entry.plain 6)] [1, 2] 3
      (by simp [NodupKeys])).2.2 2 (by decide)⟩

/-! ## Claim C7: the WebSocket change-notification queue -/

theorem flushPixelBatch_gt_one (st : NotifState) (h : 1 < st.queue.length) :
    flushPixelBatch st = ({ queue := [], timerSet := false }, [Emission.batch st.queue]) := by
  obtain ⟨q, t⟩ := st
  rcases q with _ | ⟨a, rest⟩
  · simp at h
  · rcases rest with _ | ⟨b, rest2⟩
    · simp at h
    · rfl

theorem runEnqueue_small :
    ∀ (us q : List PixelUpdateMsg) (t : Bool), (q ++ us).length < pixelBatchSize →
      runEnqueue { queue := q, timerSet := t } us
        = ({ queue := q ++ us, timerSet := t || !us.isEmpty }, []) := by
  intro us
  induction us with
  | nil => intro q t h; simp [runEnqueue]
  | cons u rest ih =>
      intro q t h
      have hlen : ¬pixelBatchSize ≤
          (({ queue := q, timerSet := t } : NotifState).queue ++ [u]).length := by
        simp [pixelBatchSize] at h ⊢
        omega
      have step : batchPixelUpdate { queue := q, timerSet := t } u
          = ({ queue := q ++ [u], timerSet := true }, []) := by
        unfold batchPixelUpdate
        rw [if_neg hlen]
        cases t <;> simp
      have hb : ((q ++ [u]) ++ rest).length < pixelBatchSize := by
        simpa [List.append_assoc] using h
      simp only [runEnqueue, step, ih (q ++ [u]) true hb, List.append_assoc,
        List.singleton_append, List.nil_append, List.isEmpty_cons, Bool.not_false,
        Bool.or_true, Bool.true_or]

theorem runEnqueue_snoc (st : NotifState) (as : List PixelUpdateMsg)
    (b : PixelUpdateMsg) :
    runEnqueue st (as ++ [b])
      = ((batchPixelUpdate (runEnqueue st as).1 b).1,
          (runEnqueue st as).2 ++ (batchPixelUpdate (runEnqueue st as).1 b).2) := by
  induction as generalizing st with
  | nil => simp [runEnqueue]
  | cons a rest ih => simp [runEnqueue, ih, List.append_assoc]

/-- Claim C7: enqueuing exactly `PIXEL_BATCH_SIZE` (20) changes from the
idle state synchronously triggers exactly one flush, which empties the
queue and emits a single batch notification carrying all 20 items in
enqueue order; any flush with more than one queued item emits one batch
notification with all queued items in order, and a flush with exactly one
queued item emits one single-item notification; enqueuing a single item
emits nothing, arms the batch-delay timer, and the timer firing (the
100 ms delay elapsing invokes `flush_pixel_batch`) emits exactly one
single-item notification. -/
theorem claim_C7 :
    (∀ us : List PixelUpdateMsg, us.length = pixelBatchSize →
      runEnqueue { queue := [], timerSet := false } us
        = ({ queue := [], timerSet := false }, [Emission.batch us]))
    ∧ (∀ st : NotifState, 1 < st.queue.length →
        flushPixelBatch st
          = ({ queue := [], timerSet := false }, [Emission.batch st.queue]))
    ∧ (∀ (st : NotifState) (u : PixelUpdateMsg), st.queue = [u] →
        flushPixelBatch st
          = ({ queue := [], timerSet := false }, [Emission.single u]))
    ∧ (∀ u : PixelUpdateMsg,
        batchPixelUpdate { queue := [], timerSet := false } u
          = ({ queue := [u], timerSet := true }, [])
        ∧ flushPixelBatch { queue := [u], timerSet := true }
          = ({ queue := [], timerSet := false }, [Emission.single u])) := by
  refine ⟨?_, flushPixelBatch_gt_one, ?_, fun u => ⟨rfl, rfl⟩⟩
  · intro us h
    have hne : us ≠ [] := by
      intro e
      rw [e] at h
      simp [pixelBatchSize] at h
    rcases us.eq_nil_or_concat with rfl | ⟨ys, y, rfl⟩
    · exact absurd rfl hne
    · rw [List.concat_eq_append] at h ⊢
      have hys : ys.length + 1 = pixelBatchSize := by simpa using h
      rw [runEnqueue_snoc]
      rw [runEnqueue_small ys [] false (by simp [pixelBatchSize] at hys ⊢; omega)]
      have hq : pixelBatchSize ≤
          ((({ queue := [] ++ ys, timerSet := false || !ys.isEmpty } :
            NotifState)).queue ++ [y]).length := by
        simp only [List.nil_append, List.length_append, List.length_cons]
        omega
      unfold batchPixelUpdate
      rw [if_pos hq]
      rw [flushPixelBatch_gt_one _ (by
        simp only [List.nil_append, List.length_append, List.length_cons]
        simp [pixelBatchSize] at hys
        omega)]
      simp
  · intro st u hst
    obtain ⟨q, t⟩ := st
    simp only at hst
    subst hst
    rfl

/-- Witness for C7 at concrete inputs: 20 identical enqueues from idle emit
exactly one batch of those 20 items and leave the queue empty, and a timer
flush of a one-item queue emits exactly one single-item notification. -/
theorem claim_C7_witness :
    runEnqueue { queue := [], timerSet := false }
        (List.replicate 20 (⟨0, 0, "#FFFFFF", "u"⟩ : PixelUpdateMsg))
      = ({ queue := [], timerSet := false },
          [Emission.batch (List.replicate 20 ⟨0, 0, "#FFFFFF", "u"⟩)])
    ∧ flushPixelBatch { queue := [⟨1, 2, "#000000", "v"⟩], timerSet := true }
      = ({ queue := [], timerSet := false }, [Emission.single ⟨1, 2, "#000000", "v"⟩]) :=
  ⟨claim_C7.1 _ (by simp [pixelBatchSize]),
    (claim_C7.2.2.2 ⟨1, 2, "#000000", "v"⟩).2⟩

/-! ## Claim C5: tiered get checks L1, L2, L3 in order and promotes hits -/

theorem evictLoop_lookup_preserved {K V : Type} [DecidableEq K] (maxSize : Nat) :
    ∀ (order : List K) (cache : List (K × L1Entry V)) (q : K),
      q ∉ order.take (order.length - maxSize) →
      dlookup (evictLoop maxSize order cache).2 q = dlookup cache q := by
  intro order
  induction order with
  | nil => intro cache q _; simp [evictLoop]
  | cons a rest ih =>
      intro cache q hq
      by_cases h : rest.length + 1 > maxSize
      · have h1 : (a :: rest).length - maxSize = (rest.length - maxSize) + 1 := by
          simp only [List.length_cons]; omega
        rw [h1, List.take_succ_cons] at hq
        simp only [List.mem_cons, not_or] at hq
        simp only [evictLoop, if_pos h]
        rw [ih (dremove cache a) q hq.2, dlookup_dremove_ne cache (fun e => hq.1 e.symm)]
      · simp [evictLoop, h]

theorem updateL1Lru_lookup_self {K V : Type} [DecidableEq K] (maxSize : Nat)
    (cache : List (K × L1Entry V)) (order : List K) (key : K) (e : L1Entry V)
    (hm : 1 ≤ maxSize) (ho : order.Nodup) :
    dlookup (updateL1Lru maxSize (dinsert cache key e) order key).1 key = some e := by
  have hfront : key ∉ (if key ∈ order then order.erase key else order) := by
    by_cases h : key ∈ order
    · simp only [if_pos h]
      intro hmem
      exact absurd (ho.mem_erase_iff.mp hmem).1 (by simp)
    · simp only [if_neg h]
      exact h
  have hkey : key ∉ ((if key ∈ order then order.erase key else order) ++ [key]).take
      (((if key ∈ order then order.erase key else order) ++ [key]).length - maxSize) := by
    intro hmem
    set front := if key ∈ order then order.erase key else order with hf
    have hle : (front ++ [key]).length - maxSize ≤ front.length := by
      simp only [List.length_append, List.length_cons, List.length_nil]
      omega
    rw [List.take_append_eq_append_take, Nat.sub_eq_zero_of_le hle] at hmem
    simp only [List.take_zero, List.append_nil] at hmem
    exact hfront (List.take_subset _ _ hmem)
  simp only [updateL1Lru]
  rw [evictLoop_lookup_preserved maxSize _ _ key hkey, dlookup_dinsert, if_pos rfl]

/-- Claim C5: `TieredCacheService.get` consults L1, then L2, then L3, in
that order, and returns the value of the first tier holding an unexpired
entry; an L2 hit is promoted to L1 with its remaining TTL, an L3 hit is
promoted to both L1 and L2 with its remaining TTL, and when no tier holds
an unexpired entry `get` returns `None` (the caller falls back to the pixel
store — the cache never re-derives canvas data itself).  Stated under a
failure-free run (`l2GetFails = l3ReadFails = false`), a positive L1
capacity, and a duplicate-free access-order list. -/
theorem claim_C5 {K V : Type} [DecidableEq K] (maxSize now : Nat) (st : TCState K V)
    (key : K) (hm : 1 ≤ maxSize) (ho : st.l1Order.Nodup) :
    (∀ v raw exp, dlookup st.l1 key = some (L1Entry.wrapped v raw exp) → ¬now > exp →
      (tcGet maxSize now st key false false).1 = some v)
    ∧ (∀ v, dlookup st.l1 key = some (L1Entry.plain v) →
      (tcGet maxSize now st key false false).1 = some v)
    ∧ (∀ raw exp,
        (dlookup st.l1 key = none
          ∨ ∃ v0 r0 e0, dlookup st.l1 key = some (L1Entry.wrapped v0 r0 e0) ∧ now > e0) →
        st.useRedis = true → dlookup st.l2 key = some (raw, exp) → exp > now →
        (tcGet maxSize now st key false false).1 = some raw
        ∧ dlookup (tcGet maxSize now st key false false).2.l1 key
            = some (L1Entry.wrapped raw raw exp))
    ∧ (∀ raw exp,
        (dlookup st.l1 key = none
          ∨ ∃ v0 r0 e0, dlookup st.l1 key = some (L1Entry.wrapped v0 r0 e0) ∧ now > e0) →
        (st.useRedis = false ∨ dlookup st.l2 key = none
          ∨ ∃ r1 e1, dlookup st.l2 key = some (r1, e1) ∧ ¬e1 > now) →
        dlookup st.l3 key = some (raw, exp) → exp > now →
        (tcGet maxSize now st key false false).1 = some raw
        ∧ dlookup (tcGet maxSize now st key false false).2.l1 key
            = some (L1Entry.wrapped raw raw exp)
        ∧ (st.useRedis = true →
            dlookup (tcGet maxSize now st key false false).2.l2 key = some (raw, exp)))
    ∧ ((dlookup st.l1 key = none
          ∨ ∃ v0 r0 e0, dlookup st.l1 key = some (L1Entry.wrapped v0 r0 e0) ∧ now > e0) →
        (st.useRedis = false ∨ dlookup st.l2 key = none
          ∨ ∃ r1 e1, dlookup st.l2 key = some (r1, e1) ∧ ¬e1 > now) →
        (dlookup st.l3 key = none
          ∨ ∃ r2 e2, dlookup st.l3 key = some (r2, e2) ∧ ¬e2 > now) →
        (tcGet maxSize now st key false false).1 = none) := by
  refine ⟨?_, ?_, ?_, ?_, ?_⟩
  · intro v raw exp h1 hexp
    simp [tcGet, h1, hexp]
  · intro v h1
    simp [tcGet, h1]
  · intro raw exp hdead hredis h2 hexp
    have hl2 : ∀ st' : TCState K V, st'.l2 = st.l2 → st'.l1Order = st.l1Order →
        st'.useRedis = st.useRedis →
        (tcGetL2 maxSize now st' key false false).1 = some raw
        ∧ dlookup (tcGetL2 maxSize now st' key false false).2.l1 key
            = some (L1Entry.wrapped raw raw exp) := by
      intro st' h2eq hordeq hredeq
      have httl : 0 < exp - now := Nat.sub_pos_of_lt hexp
      have hback : now + (exp - now) = exp := Nat.add_sub_cancel' (Nat.le_of_lt hexp)
      simp only [tcGetL2, hredeq, hredis, Bool.not_false, and_true, if_true, h2eq, h2,
        not_false_iff, true_and, if_pos hexp, if_pos httl]
      refine ⟨rfl, ?_⟩
      simpa [hback, hordeq] using
        updateL1Lru_lookup_self maxSize st'.l1 st'.l1Order key
          (L1Entry.wrapped raw raw (now + (exp - now))) hm (hordeq ▸ ho)
    rcases hdead with h1 | ⟨v0, r0, e0, h1, he0⟩
    · have := hl2 st rfl rfl rfl
      simpa [tcGet, h1] using this
    · have := hl2 { st with l1 := dremove st.l1 key } rfl rfl rfl
      simpa [tcGet, h1, he0] using this
  · intro raw exp hdead hl2dead h3 hexp
    have hl3 : ∀ st' : TCState K V, st'.l2 = st.l2 → st'.l3 = st.l3 →
        st'.l1Order = st.l1Order → st'.useRedis = st.useRedis →
        (tcGetL3 maxSize now st' key false).1 = some raw
        ∧ dlookup (tcGetL3 maxSize now st' key false).2.l1 key
            = some (L1Entry.wrapped raw raw exp)
        ∧ (st.useRedis = true →
            dlookup (tcGetL3 maxSize now st' key false).2.l2 key = some (raw, exp)) := by
      intro st' h2eq h3eq hordeq hredeq
      have httl : 0 < exp - now := Nat.sub_pos_of_lt hexp
      have hback : now + (exp - now) = exp := Nat.add_sub_cancel' (Nat.le_of_lt hexp)
      simp only [tcGetL3, h3eq, h3, Bool.false_eq_true, if_false, if_pos hexp, if_pos httl]
      refine ⟨by trivial, ?_, ?_⟩
      · cases hred : st.useRedis <;>
          simpa [hredeq, hred, hback, hordeq] using
            updateL1Lru_lookup_self maxSize st'.l1 st'.l1Order key
              (L1Entry.wrapped raw raw exp) hm (hordeq ▸ ho)
      · intro hred
        simp [hredeq, hred, h2eq, hback, dlookup_dinsert]
    have hl2pass : ∀ st' : TCState K V, st'.l2 = st.l2 → st'.l3 = st.l3 →
        st'.l1Order = st.l1Order → st'.useRedis = st.useRedis →
        tcGetL2 maxSize now st' key false false = tcGetL3 maxSize now st' key false := by
      intro st' h2eq h3eq hordeq hredeq
      rcases hl2dead with hred | h2n | ⟨r1, e1, h2s, he1⟩
      · simp [tcGetL2, hredeq, hred]
      · simp [tcGetL2, hredeq, h2eq, h2n]
      · simp [tcGetL2, hredeq, h2eq, h2s, he1]
    rcases hdead with h1 | ⟨v0, r0, e0, h1, he0⟩
    · have h := hl3 st rfl rfl rfl rfl
      have hp := hl2pass st rfl rfl rfl rfl
      simpa [tcGet, h1, hp] using h
    · have h := hl3 { st with l1 := dremove st.l1 key } rfl rfl rfl rfl
      have hp := hl2pass { st with l1 := dremove st.l1 key } rfl rfl rfl rfl
      simpa [tcGet, h1, he0, hp] using h
  · intro hdead hl2dead hl3dead
    have hl3 : ∀ st' : TCState K V, st'.l3 = st.l3 →
        (tcGetL3 maxSize now st' key false).1 = none := by
      intro st' h3eq
      rcases hl3dead with h3n | ⟨r2, e2, h3s, he2⟩
      · simp [tcGetL3, h3eq, h3n]
      · simp [tcGetL3, h3eq, h3s, he2]
    have hl2pass : ∀ st' : TCState K V, st'.l2 = st.l2 → st'.useRedis = st.useRedis →
        tcGetL2 maxSize now st' key false false = tcGetL3 maxSize now st' key false := by
      intro st' h2eq hredeq
      rcases hl2dead with hred | h2n | ⟨r1, e1, h2s, he1⟩
      · simp [tcGetL2, hredeq, hred]
      · simp [tcGetL2, hredeq, h2eq, h2n]
      · simp [tcGetL2, hredeq, h2eq, h2s, he1]
    rcases hdead with h1 | ⟨v0, r0, e0, h1, he0⟩
    · have h := hl3 st rfl
      have hp := hl2pass st rfl rfl
      simpa [tcGet, h1, hp] using h
    · have h := hl3 { st with l1 := dremove st.l1 key } rfl
      have hp := hl2pass { st with l1 := dremove st.l1 key } rfl rfl
      simpa [tcGet, h1, he0, hp] using h

/-- Witness for C5 at concrete inputs: with L1 empty and Redis holding
key 0 with payload 42 until instant 30, a get at instant 5 returns 42 and
promotes the entry to L1 expiring at 30; with all tiers empty the get
returns `None`. -/
theorem claim_C5_witness :
    (tcGet 10 5 (⟨[], [], [(0, (42, 30))], [], true⟩ : TCState Nat Nat) 0 false false).1
        = some 42
    ∧ dlookup (tcGet 10 5 (⟨[], [], [(0, (42, 30))], [], true⟩ : TCState Nat Nat) 0
        false false).2.l1 0 = some (L1Entry.wrapped 42 42 30)
    ∧ (tcGet 10 5 (⟨[], [], [], [], true⟩ : TCState Nat Nat) 0 false false).1 = none :=
  ⟨((claim_C5 10 5 ⟨[], [], [(0, (42, 30))], [], true⟩ 0 (by decide)
      List.nodup_nil).2.2.1 42 30 (Or.inl rfl) rfl (by decide) (by decide)).1,
    ((claim_C5 10 5 ⟨[], [], [(0, (42, 30))], [], true⟩ 0 (by decide)
      List.nodup_nil).2.2.1 42 30 (Or.inl rfl) rfl (by decide) (by decide)).2,
    (claim_C5 10 5 ⟨[], [], [], [], true⟩ 0 (by decide)
      List.nodup_nil).2.2.2.2 (Or.inl rfl) (Or.inr (Or.inl rfl)) (Or.inl rfl)⟩

/-! ## Claim C3: delta-compressed persistence round-trips -/

theorem dlookup_foldl_dinsert_not_mem {K V : Type} [DecidableEq K] :
    ∀ (ps d : List (K × V)) (q : K), q ∉ ps.map Prod.fst →
      dlookup (ps.foldl (fun d p => dinsert d p.1 p.2) d) q = dlookup d q := by
  intro ps
  induction ps with
  | nil => intro d q _; rfl
  | cons p rest ih =>
      intro d q hq
      simp only [List.map_cons, List.mem_cons, not_or] at hq
      simp only [List.foldl_cons]
      rw [ih _ q hq.2, dlookup_dinsert, if_neg hq.1]

theorem dlookup_foldl_dinsert_mem {K V : Type} [DecidableEq K] :
    ∀ (ps d : List (K × V)) (q : K) (v : V), NodupKeys ps → (q, v) ∈ ps →
      dlookup (ps.foldl (fun d p => dinsert d p.1 p.2) d) q = some v := by
  intro ps
  induction ps with
  | nil => intro d q v _ h; simp at h
  | cons p rest ih =>
      intro d q v hnd hmem
      obtain ⟨k0, v0⟩ := p
      rcases List.mem_cons.mp hmem with h1 | h2
      · injection h1 with hq hv
        subst hq; subst hv
        have hqr : q ∉ rest.map Prod.fst := (List.nodup_cons.mp hnd).1
        simp only [List.foldl_cons]
        rw [dlookup_foldl_dinsert_not_mem rest _ q hqr, dlookup_dinsert, if_pos rfl]
      · simp only [List.foldl_cons]
        exact ih _ q v (List.nodup_cons.mp hnd).2 h2

theorem dlookup_foldl_dremove_not_mem {K V : Type} [DecidableEq K] :
    ∀ (ks : List K) (d : List (K × V)) (q : K), q ∉ ks →
      dlookup (ks.foldl (fun d k => dremove d k) d) q = dlookup d q := by
  intro ks
  induction ks with
  | nil => intro d q _; rfl
  | cons k rest ih =>
      intro d q hq
      simp only [List.mem_cons, not_or] at hq
      simp only [List.foldl_cons]
      rw [ih _ q hq.2, dlookup_dremove_ne d (fun e => hq.1 e.symm)]

theorem dlookup_foldl_dremove_none {K V : Type} [DecidableEq K] :
    ∀ (ks : List K) (d : List (K × V)) (q : K), dlookup d q = none →
      dlookup (ks.foldl (fun d k => dremove d k) d) q = none := by
  intro ks
  induction ks with
  | nil => intro d q h; exact h
  | cons k rest ih =>
      intro d q h
      simp only [List.foldl_cons]
      exact ih _ q (dlookup_dremove_none k h)

theorem dlookup_foldl_dremove_mem {K V : Type} [DecidableEq K] :
    ∀ (ks : List K) (d : List (K × V)) (q : K), NodupKeys d → q ∈ ks →
      dlookup (ks.foldl (fun d k => dremove d k) d) q = none := by
  intro ks
  induction ks with
  | nil => intro d q _ h; simp at h
  | cons k rest ih =>
      intro d q hd hq
      simp only [List.foldl_cons]
      rcases List.mem_cons.mp hq with rfl | hq2
      · exact dlookup_foldl_dremove_none rest _ q (dlookup_dremove_self q hd)
      · exact ih _ q (nodupKeys_dremove k hd) hq2

theorem nodupKeys_foldl_dinsert {K V : Type} [DecidableEq K] :
    ∀ (ps d : List (K × V)), NodupKeys d →
      NodupKeys (ps.foldl (fun d p => dinsert d p.1 p.2) d) := by
  intro ps
  induction ps with
  | nil => intro d h; exact h
  | cons p rest ih =>
      intro d h
      simp only [List.foldl_cons]
      exact ih _ (nodupKeys_dinsert p.1 p.2 h)

theorem mem_keys_iff {K V : Type} (d : List (K × V)) (q : K) :
    q ∈ d.map Prod.fst ↔ ∃ v, (q, v) ∈ d := by
  constructor
  · intro hm
    obtain ⟨⟨q2, v2⟩, hmem, hfst⟩ := List.mem_map.mp hm
    exact ⟨v2, by rwa [show q2 = q from hfst] at hmem⟩
  · rintro ⟨v, hv⟩
    exact List.mem_map.mpr ⟨(q, v), hv, rfl⟩

theorem applyDelta_calcDelta {K V : Type} [DecidableEq K] [DecidableEq V]
    (base current : List (K × V)) (hb : NodupKeys base) (hc : NodupKeys current)
    (q : K) : dlookup (applyDelta base (calcDelta base current)) q = dlookup current q := by
  have haddnd : NodupKeys (calcDelta base current).added :=
    hc.sublist ((List.filter_sublist _).map Prod.fst)
  have hmodnd : NodupKeys (calcDelta base current).modified :=
    hc.sublist ((List.filter_sublist _).map Prod.fst)
  simp only [applyDelta]
  cases hcur : dlookup current q with
  | some v =>
      have hqv : (q, v) ∈ current := dlookup_mem hcur
      have hdel : q ∉ (calcDelta base current).deleted := by
        intro hm
        have h2 := (List.mem_filter.mp hm).2
        simp [hcur] at h2
      cases hbase : dlookup base q with
      | none =>
          have hadd : (q, v) ∈ (calcDelta base current).added :=
            List.mem_filter.mpr ⟨hqv, by simp [hbase]⟩
          have hmodk : q ∉ ((calcDelta base current).modified).map Prod.fst := by
            intro hm
            obtain ⟨v2, hmem⟩ := (mem_keys_iff _ q).mp hm
            have h2 := (List.mem_filter.mp hmem).2
            simp [hbase] at h2
          rw [dlookup_foldl_dremove_not_mem _ _ q hdel,
            dlookup_foldl_dinsert_not_mem _ _ q hmodk,
            dlookup_foldl_dinsert_mem _ _ q v haddnd hadd]
      | some w =>
          have haddk : q ∉ ((calcDelta base current).added).map Prod.fst := by
            intro hm
            obtain ⟨v2, hmem⟩ := (mem_keys_iff _ q).mp hm
            have h2 := (List.mem_filter.mp hmem).2
            simp [hbase] at h2
          by_cases hv : w = v
          · have hmodk : q ∉ ((calcDelta base current).modified).map Prod.fst := by
              intro hm
              obtain ⟨v2, hmem⟩ := (mem_keys_iff _ q).mp hm
              have hv2 : v2 = v := by
                have h3 := dlookup_of_mem_nodup hc (List.mem_filter.mp hmem).1
                rw [hcur] at h3
                exact (Option.some.inj h3).symm
              have h4 := (List.mem_filter.mp hmem).2
              rw [hv2] at h4
              simp [hbase, hv] at h4
            rw [dlookup_foldl_dremove_not_mem _ _ q hdel,
              dlookup_foldl_dinsert_not_mem _ _ q hmodk,
              dlookup_foldl_dinsert_not_mem _ _ q haddk, hbase, hv]
          · have hmod : (q, v) ∈ (calcDelta base current).modified := by
              refine List.mem_filter.mpr ⟨hqv, ?_⟩
              simp only [hbase, Option.isSome_some, true_and, decide_eq_true_eq]
              intro e
              exact hv (Option.some.inj e)
            rw [dlookup_foldl_dremove_not_mem _ _ q hdel,
              dlookup_foldl_dinsert_mem _ _ q v hmodnd hmod]
  | none =>
      have hq : q ∉ current.map Prod.fst := (dlookup_eq_none_iff current q).mp hcur
      have haddk : q ∉ ((calcDelta base current).added).map Prod.fst := by
        intro hm
        obtain ⟨v2, hmem⟩ := (mem_keys_iff _ q).mp hm
        exact hq ((mem_keys_iff _ q).mpr ⟨v2, (List.mem_filter.mp hmem).1⟩)
      have hmodk : q ∉ ((calcDelta base current).modified).map Prod.fst := by
        intro hm
        obtain ⟨v2, hmem⟩ := (mem_keys_iff _ q).mp hm
        exact hq ((mem_keys_iff _ q).mpr ⟨v2, (List.mem_filter.mp hmem).1⟩)
      cases hbase : dlookup base q with
      | none =>
          have hbk : q ∉ base.map Prod.fst := (dlookup_eq_none_iff base q).mp hbase
          have hdel : q ∉ (calcDelta base current).deleted := by
            intro hm
            exact hbk (List.mem_filter.mp hm).1
          rw [dlookup_foldl_dremove_not_mem _ _ q hdel,
            dlookup_foldl_dinsert_not_mem _ _ q hmodk,
            dlookup_foldl_dinsert_not_mem _ _ q haddk, hbase]
      | some w =>
          have hdel : q ∈ (calcDelta base current).deleted := by
            refine List.mem_filter.mpr ⟨(mem_keys_iff _ q).mpr ⟨w, dlookup_mem hbase⟩, ?_⟩
            simp [hcur]
          have hnd2 : NodupKeys ((calcDelta base current).modified.foldl
              (fun d p => dinsert d p.1 p.2)
              ((calcDelta base current).added.foldl (fun d p => dinsert d p.1 p.2) base)) :=
            nodupKeys_foldl_dinsert _ _ (nodupKeys_foldl_dinsert _ _ hb)
          rw [dlookup_foldl_dremove_mem _ _ q hnd2 hdel]

/-- Claim C3 (amended): applying the computed delta (added, then modified,
then deleted, in that order) to the base reproduces exactly the current
dictionary, for all duplicate-free dictionaries; and for every NON-EMPTY
pixel mapping, saving through the delta-compressed path from any
previously-saved-or-fresh state and loading back reproduces an identical
mapping (same keys, same value per key).  The empty mapping is the
exception the counterexample exhibits: `load_with_delta` treats an empty
base as missing and returns `None`. -/
theorem claim_C3 {K V : Type} [DecidableEq K] [DecidableEq V] :
    (∀ base current : List (K × V), NodupKeys base → NodupKeys current → ∀ q,
      dlookup (applyDelta base (calcDelta base current)) q = dlookup current q)
    ∧ (∀ (tooLarge : Delta K V → List (K × V) → Bool) (st : DeltaStore K V)
        (data : List (K × V)), GoodStore st → data ≠ [] → NodupKeys data →
        ∃ r, loadWithDelta (saveWithDelta tooLarge st data) = some r
          ∧ ∀ q, dlookup r q = dlookup data q) := by
  refine ⟨applyDelta_calcDelta, ?_⟩
  intro tooLarge st data hgood hne hnd
  have hdataEmpty : data.isEmpty = false := by
    cases data with
    | nil => exact absurd rfl hne
    | cons a as => rfl
  rcases hgood with ⟨hs, hb, hd⟩ | ⟨b, hs, hb, hbne, hbnd⟩
  · refine ⟨data, ?_, fun q => rfl⟩
    simp [saveWithDelta, hs, hb, loadWithDelta, hd, hdataEmpty]
  · have hbEmpty : b.isEmpty = false := by
      cases b with
      | nil => exact absurd rfl hbne
      | cons a as => rfl
    by_cases hcheck : tooLarge (calcDelta b data) b
    · refine ⟨data, ?_, fun q => rfl⟩
      simp [saveWithDelta, hs, saveStep, hcheck, loadWithDelta, hdataEmpty]
    · refine ⟨applyDelta b (calcDelta b data), ?_,
        fun q => applyDelta_calcDelta b data hbnd hnd q⟩
      simp [saveWithDelta, hs, saveStep, hcheck, loadWithDelta, hb, hbEmpty]

/-- Counterexample to C3 as stated: saving the EMPTY mapping through the
delta path and loading it back yields `None`, not the empty mapping —
`load_with_delta` returns `None` for a falsy (empty) base snapshot. -/
theorem claim_C3_counterexample :
    loadWithDelta (saveWithDelta (fun _ _ => false)
      ({ baseFile := none, deltaFile := none, snapshot := none } : DeltaStore String Nat)
      []) ≠ some [] := by
  decide

/-- Witness for C3 at a concrete input: saving the one-pixel mapping from
the fresh state and loading it back reproduces it exactly. -/
theorem claim_C3_witness :
    loadWithDelta (saveWithDelta (fun _ _ => true)
      ({ baseFile := none, deltaFile := none, snapshot := none } : DeltaStore String Nat)
      [("0,0", 7)]) = some [("0,0", 7)] := by
  have h := (claim_C3 (K := String) (V := Nat)).2 (fun _ _ => true)
    { baseFile := none, deltaFile := none, snapshot := none } [("0,0", 7)]
    (Or.inl ⟨rfl, rfl, rfl⟩) (by decide) (by simp [NodupKeys])
  obtain ⟨r, hr, _⟩ := h
  rw [hr]
  rw [show r = [("0,0", 7)] from by
    have h2 : loadWithDelta (saveWithDelta (fun _ _ => true)
        ({ baseFile := none, deltaFile := none, snapshot := none } : DeltaStore String Nat)
        [("0,0", 7)]) = some [("0,0", 7)] := by decide
    exact Option.some.inj (hr.symm.trans h2)]

end Mural










